import Mathlib

/-!
# Verification of the `peepable` lookahead iterator wrapper

Shallow embedding of `src/lib.rs`: the `Peepable<I>` wrapper over a Rust
`Iterator`, with its three operations `new`, `next` (called `advance` here,
because Lean cannot give the structure field `next` and the method the same
name) and `peep`.

A deterministic, single-threaded Rust iterator is fully described by the
sequence of results its successive `next()` calls return.  We therefore model
an iterator as that predetermined result stream (`pulls : Nat → Option α`)
together with the number of pulls made so far (`pos`); calling `next()` reads
`pulls pos` and increments `pos`.
-/

/-- Model of a Rust `Iterator` with item type `α`: `pulls k` is the result of
the `k`-th call to `next()` over the iterator's lifetime, and `pos` counts the
calls already made. -/
structure Iter (α : Type) where
  pulls : Nat → Option α
  pos : Nat

/-- `Iterator::next`: return the current pull's result and advance the
counter. -/
def Iter.next (it : Iter α) : Option α × Iter α :=
  (it.pulls it.pos, { it with pos := it.pos + 1 })

/-- The iterator of a finite list, as produced by Rust's `vec![...].into_iter()`:
the `k`-th pull yields element `k` while in bounds and `None` afterwards. -/
def Iter.ofList (l : List α) : Iter α :=
  { pulls := fun k => l[k]?, pos := 0 }

/-- A well-behaved (fuse-like) producer: once a pull returns `None`, every
later pull returns `None`. -/
def Iter.Fused (it : Iter α) : Prop :=
  ∀ k j : Nat, it.pulls k = none → k ≤ j → it.pulls j = none

/-- `Peepable<I>` from `src/lib.rs`: the owned underlying iterator `iter` and
the eagerly buffered slot (field `next` in the Rust source). -/
structure Peepable (α : Type) where
  iter : Iter α
  next : Option α

/-- `Peepable::new`: pull one item from the iterator and store it in the
buffered slot (`let next = iter.next(); Peepable { iter, next }`). -/
def Peepable.new (it : Iter α) : Peepable α :=
  let pulled := it.next
  { iter := pulled.2, next := pulled.1 }

/-- `<Peepable as Iterator>::next` (named `advance` because the field already
uses the name `next`): pull the iterator's next value, swap it with the
buffered one via `mem::swap`, and return the previously buffered value. -/
def Peepable.advance (p : Peepable α) : Option α × Peepable α :=
  let pulled := p.iter.next
  (p.next, { iter := pulled.2, next := pulled.1 })

/-- `Peepable::peep`: read the buffered slot without touching the iterator
(`match self.next { Some(ref next) => Some(next), None => None }`). -/
def Peepable.peep (p : Peepable α) : Option α :=
  match p.next with
  | some x => some x
  | none => none

/-- Iterate `advance`, keeping only the final state. -/
def Peepable.advanceN : Peepable α → Nat → Peepable α
  | p, 0 => p
  | p, n + 1 => Peepable.advanceN (p.advance).2 n

/-- Drain `n` results from an iterator by repeated `next` calls. -/
def Iter.runN : Iter α → Nat → List (Option α)
  | _, 0 => []
  | it, n + 1 =>
    let s := it.next
    s.1 :: Iter.runN s.2 n

/-- Drain `n` results from a wrapper by repeated `advance` calls. -/
def Peepable.runN : Peepable α → Nat → List (Option α)
  | _, 0 => []
  | p, n + 1 =>
    let s := p.advance
    s.1 :: Peepable.runN s.2 n

/-- One call to `peep` on a shared reference: it returns the buffered value
and, being a `&self` method without interior mutability, leaves the wrapper
untouched. -/
def Peepable.peepCall (p : Peepable α) : Option α × Peepable α :=
  (p.peep, p)

/-- `n` consecutive `peep` calls, threading the wrapper state, collecting the
results. -/
def Peepable.peepCalls : Peepable α → Nat → List (Option α) × Peepable α
  | p, 0 => ([], p)
  | p, n + 1 =>
    let s := p.peepCall
    let rest := Peepable.peepCalls s.2 n
    (s.1 :: rest.1, rest.2)

/-- The source is exhausted from the wrapper's perspective: every present or
future lookahead is empty (hence every future `advance` returns empty). -/
def Peepable.Exhausted (p : Peepable α) : Prop :=
  ∀ n : Nat, (p.advanceN n).peep = none

/-- The buffered-slot invariant: the slot is empty exactly when the source is
exhausted from the wrapper's perspective. -/
def Peepable.Inv (p : Peepable α) : Prop :=
  p.next = none ↔ p.Exhausted

-- ## Basic lemmas

lemma Peepable.peep_eq (p : Peepable α) : p.peep = p.next := by
  unfold Peepable.peep
  cases p.next <;> rfl

lemma Peepable.advance_fst (p : Peepable α) : (p.advance).1 = p.next := rfl

lemma Peepable.advance_snd (p : Peepable α) :
    (p.advance).2 = Peepable.new p.iter := rfl

/-- Closed form for the state after `k` advances from a freshly built
wrapper: the counter is `pos + k + 1` and the buffer holds pull `pos + k`. -/
lemma Peepable.advanceN_new (it : Iter α) (k : Nat) :
    Peepable.advanceN (Peepable.new it) k =
      { iter := { pulls := it.pulls, pos := it.pos + k + 1 },
        next := it.pulls (it.pos + k) } := by
  induction k generalizing it with
  | zero => rfl
  | succ k ih =>
    show Peepable.advanceN ((Peepable.new it).advance).2 k = _
    have hstep : ((Peepable.new it).advance).2 =
        Peepable.new { pulls := it.pulls, pos := it.pos + 1 } := rfl
    rw [hstep, ih]
    have h1 : it.pos + 1 + k = it.pos + (k + 1) := by omega
    rw [h1]

lemma Peepable.peep_advanceN_new (it : Iter α) (k : Nat) :
    (Peepable.advanceN (Peepable.new it) k).peep = it.pulls (it.pos + k) := by
  rw [Peepable.peep_eq, Peepable.advanceN_new]

lemma Iter.fused_ofList (l : List α) : (Iter.ofList l).Fused := by
  intro k j hk hkj
  simp only [Iter.ofList] at hk ⊢
  rw [List.getElem?_eq_none_iff] at hk ⊢
  omega

-- ## Claim theorems

/-- C1: for every wrapper state, advance returns exactly what the buffered
slot held before the call (the fresh pull only refills the slot); in
particular, whenever `peep` returns `some x`, the immediately following
`advance` returns `some x`. -/
theorem advance_returns_buffered (p : Peepable α) :
    (p.advance).1 = p.peep ∧ ∀ x : α, p.peep = some x → (p.advance).1 = some x := by
  refine ⟨?_, ?_⟩
  · rw [Peepable.advance_fst, Peepable.peep_eq]
  · intro x hx
    rw [Peepable.advance_fst, ← Peepable.peep_eq, hx]

/-- Witness for C1 at a concrete state: wrapping `[1, 2]` gives a wrapper
whose peep is `some 1`, and advance indeed returns `some 1`. -/
theorem advance_returns_buffered_witness :
    ((Peepable.new (Iter.ofList [1, 2])).advance).1 = some 1 :=
  (advance_returns_buffered (Peepable.new (Iter.ofList [1, 2]))).2 1 (by rfl)

/-- C2: draining any number of items from the wrapper by repeated advance
calls yields exactly the same result sequence as pulling from the producer
directly, so any sequence pipeline applied to the two drained sequences gives
identical results. -/
theorem wrapper_transparent (it : Iter α) (n : Nat) :
    Peepable.runN (Peepable.new it) n = Iter.runN it n ∧
      ∀ (β : Type) (g : List (Option α) → β),
        g (Peepable.runN (Peepable.new it) n) = g (Iter.runN it n) := by
  have key : ∀ (m : Nat) (jt : Iter α),
      Peepable.runN (Peepable.new jt) m = Iter.runN jt m := by
    intro m
    induction m with
    | zero => intro jt; rfl
    | succ m ih =>
      intro jt
      show ((Peepable.new jt).advance).1 ::
          Peepable.runN ((Peepable.new jt).advance).2 m = _
      have hstep : ((Peepable.new jt).advance).2 =
          Peepable.new { pulls := jt.pulls, pos := jt.pos + 1 } := rfl
      rw [hstep, ih]
      rfl
  exact ⟨key n it, fun β g => by rw [key n it]⟩

/-- C4: immediately after construction from a non-empty producer, with no
advance in between, peep returns the producer's first item. -/
theorem peep_after_new (x : α) (l : List α) :
    (Peepable.new (Iter.ofList (x :: l))).peep = some x := by
  rw [Peepable.peep_eq]
  simp [Peepable.new, Iter.ofList, Iter.next]

/-- C8: no operation fails; wrapping the empty producer gives a wrapper whose
peep is the ordinary empty result `none` and whose advance also returns
`none`, leaving an exhausted wrapper. -/
theorem empty_producer_ok (α : Type) :
    (Peepable.new (Iter.ofList ([] : List α))).peep = none ∧
      ((Peepable.new (Iter.ofList ([] : List α))).advance).1 = none ∧
      ((Peepable.new (Iter.ofList ([] : List α))).advance).2.peep = none := by
  refine ⟨rfl, rfl, rfl⟩

/-- C9: construction performs exactly one pull on the producer — the pull
counter of the wrapped iterator is the old counter plus one, the result
stream is untouched, and the buffered slot holds exactly that single pull's
result. -/
theorem new_pulls_exactly_one (it : Iter α) :
    (Peepable.new it).iter.pos = it.pos + 1 ∧
      (Peepable.new it).iter.pulls = it.pulls ∧
      (Peepable.new it).next = it.pulls it.pos := by
  refine ⟨rfl, rfl, rfl⟩

/-- C10: every advance call pulls exactly one item from the producer even
when the buffered slot is empty; consequently a producer that resumes after
signaling exhaustion makes the wrapper go from exhausted back to has-next:
wrapping the pull stream `none, some 1, some 2, ...` gives an exhausted
wrapper whose single advance returns `none` yet refills the buffer with
`some 1`. -/
theorem advance_always_pulls :
    (∀ (α : Type) (p : Peepable α),
        (p.advance).2.iter.pos = p.iter.pos + 1 ∧
          (p.advance).2.iter.pulls = p.iter.pulls ∧
          (p.advance).2.next = p.iter.pulls p.iter.pos) ∧
      (Peepable.new
          { pulls := fun k => if k = 0 then none else some k, pos := 0 }).peep
            = none ∧
      ((Peepable.new
          { pulls := fun k => if k = 0 then none else some k, pos := 0 }).advance).1
            = none ∧
      ((Peepable.new
          { pulls := fun k => if k = 0 then none else some k, pos := 0 }).advance).2.peep
            = some 1 := by
  exact ⟨fun α p => ⟨rfl, rfl, rfl⟩, rfl, rfl, rfl⟩

/-- C7: any number of consecutive peep calls with no intervening advance all
return the same (current buffered) value, and the wrapper state — buffered
slot and underlying producer alike — is left completely unchanged. -/
theorem peep_idempotent_pure (p : Peepable α) (n : Nat) :
    Peepable.peepCalls p n = (List.replicate n p.peep, p) := by
  induction n with
  | zero => rfl
  | succ n ih =>
    show (p.peep :: (Peepable.peepCalls p n).1, (Peepable.peepCalls p n).2) = _
    rw [ih]
    rfl

lemma Peepable.inv_new (it : Iter α) (h : it.Fused) : (Peepable.new it).Inv := by
  constructor
  · intro hb n
    rw [Peepable.peep_advanceN_new]
    exact h it.pos (it.pos + n) hb (by omega)
  · intro hex
    have h0 := hex 0
    rw [Peepable.peep_advanceN_new] at h0
    show it.pulls it.pos = none
    simpa using h0

/-- C3: for a fuse-like producer the buffered slot is empty exactly when the
source is exhausted from the wrapper's perspective; the invariant holds in
the state produced by construction and is re-established by every advance
call, from any state. -/
theorem buffered_inv :
    (∀ (α : Type) (it : Iter α), it.Fused → (Peepable.new it).Inv) ∧
      ∀ (α : Type) (p : Peepable α), p.iter.Fused → ((p.advance).2).Inv := by
  refine ⟨fun α it h => Peepable.inv_new it h, fun α p h => ?_⟩
  rw [Peepable.advance_snd]
  exact Peepable.inv_new p.iter h

/-- Witness for C3: the invariant concretely holds for the wrapper freshly
built over the empty producer, and for the wrapper over `[5]` after one
advance call. -/
theorem buffered_inv_witness :
    (Peepable.new (Iter.ofList ([] : List Nat))).Inv ∧
      (((Peepable.new (Iter.ofList [5])).advance).2).Inv :=
  ⟨buffered_inv.1 Nat (Iter.ofList []) (Iter.fused_ofList []),
   buffered_inv.2 Nat (Peepable.new (Iter.ofList [5])) (Iter.fused_ofList [5])⟩

/-- C5: when the advance call numbered `k` (zero-indexed) on a wrapper over
the list producer `l` returns an item `x`, then `x` is `l`'s element at
index `k` and the subsequent peep returns the producer's next item after
`x` — `l`'s element at index `k + 1` — or `none` when none remains. -/
theorem peep_after_advance (l : List α) (k : Nat) (x : α)
    (h : ((Peepable.advanceN (Peepable.new (Iter.ofList l)) k).advance).1 = some x) :
    l[k]? = some x ∧
      (((Peepable.advanceN (Peepable.new (Iter.ofList l)) k).advance).2).peep
        = l[k + 1]? := by
  rw [Peepable.advance_fst, Peepable.advanceN_new] at h
  simp only [Iter.ofList, Nat.zero_add] at h
  refine ⟨h, ?_⟩
  rw [Peepable.advance_snd, Peepable.peep_eq, Peepable.advanceN_new]
  simp [Peepable.new, Iter.next, Iter.ofList]

/-- Witness for C5: on the producer `[1, 2]`, the first advance returns
`some 1`, and the peep right after returns `some 2 = [1, 2][1]?`. -/
theorem peep_after_advance_witness :
    ([1, 2] : List Nat)[0]? = some 1 ∧
      (((Peepable.advanceN (Peepable.new (Iter.ofList [1, 2])) 0).advance).2).peep
        = ([1, 2] : List Nat)[0 + 1]? :=
  peep_after_advance [1, 2] 0 1 (by rfl)

/-- C6: for a fuse-like producer, once the advance call numbered `k` returns
empty, every later advance returns empty and every later peep returns empty:
the exhausted state is a permanent self-loop. -/
theorem exhaustion_terminal (it : Iter α) (k : Nat) (hf : it.Fused)
    (h : ((Peepable.advanceN (Peepable.new it) k).advance).1 = none) :
    ∀ m : Nat, k < m →
      ((Peepable.advanceN (Peepable.new it) m).advance).1 = none ∧
        (Peepable.advanceN (Peepable.new it) m).peep = none := by
  rw [Peepable.advance_fst, Peepable.advanceN_new] at h
  intro m hm
  have hpm : it.pulls (it.pos + m) = none := hf (it.pos + k) (it.pos + m) h (by omega)
  constructor
  · rw [Peepable.advance_fst, Peepable.advanceN_new]
    exact hpm
  · rw [Peepable.peep_advanceN_new]
    exact hpm

/-- Witness for C6: on the producer `[1]`, advance call number 1 returns
`none`, so advance call number 2 and the peep before it also return
`none`. -/
theorem exhaustion_terminal_witness :
    ((Peepable.advanceN (Peepable.new (Iter.ofList [1])) 2).advance).1 = none ∧
      (Peepable.advanceN (Peepable.new (Iter.ofList [1])) 2).peep = none :=
  exhaustion_terminal (Iter.ofList [1]) 1 (Iter.fused_ofList [1]) (by rfl) 2 (by omega)
